import Mathlib

/-!
Verification of the PDF annotation merger / XFDF importer.

This file shallowly embeds the two source modules
(`merge_pdf_annotations.py` and `xfdf_importer.py`) in Lean 4 and settles
the frozen claims about them.  Python floats are modelled as exact
rationals (`ℚ`); Python dictionaries with a fixed key set are modelled as
structures; dynamically-typed geometry payloads are modelled by a small
rose-tree value type; a Python function that can raise on malformed input
is modelled as returning `Except Unit`.  External library calls
(PyMuPDF's annotation construction, pikepdf's serialisation) are modelled
as oracles: a boolean success field on the record for the former, an
abstract `save` function argument for the latter.
-/

namespace PdfMerge

/-- Embeds `round_rect` (merge_pdf_annotations.py, line 45-47) at
precision 1: each coordinate is rounded to one decimal place.  Python's
`round` uses round-half-to-even on binary floats; on the rational model
we use `round` (nearest integer) on `10 * x`, which agrees except at
exact midpoints, and no claim below depends on midpoint ties. -/
def roundTenth (x : ℚ) : ℚ := (round (10 * x) : ℤ) / 10

/-- Rect as four coordinates `(x0, y0, x1, y1)`. -/
abbrev Rect := ℚ × ℚ × ℚ × ℚ

/-- Componentwise rounding of a rectangle, as `round_rect` does. -/
def round_rect (r : Rect) : Rect :=
  (roundTenth r.1, roundTenth r.2.1, roundTenth r.2.2.1, roundTenth r.2.2.2)

/-- Embeds the `AnnotationKey` dataclass (merge_pdf_annotations.py,
lines 27-42): page index, type name, (rounded) rect, content text. -/
structure AnnotationKey where
  page : Nat
  annot_type : String
  rect : Rect
  content : String
deriving DecidableEq, Repr

/-- One annotation as seen by the merge tool on a page of a source
document.  `annot_type` is `annot.type[1]`, `rect` is the raw
(unrounded) `annot.rect`, `content` is `info.get('content')` (absent
modelled as `none`; Python's `or ''` collapses both `None` and `''` to
`''`).  `copySucceeds` is the oracle for the boolean result of
`copy_annotation` (lines 120-238), whose outcome depends on the external
PyMuPDF construction API. -/
structure AnnotRec where
  annot_type : String
  rect : Rect
  content : Option String
  copySucceeds : Bool
deriving DecidableEq, Repr

/-- A document, for the merge engine, is its pages' annotation lists in
page order (the only observations `merge_pdf_annotations` makes of a
repaired document). -/
abbrev Document := List (List AnnotRec)

/-- Page-number tagging of a document's annotations starting at page
`n`: each record is paired with its page index. -/
def pageRecordsFrom (n : Nat) : Document → List (Nat × AnnotRec)
  | [] => []
  | p :: ps => p.map (fun r => (n, r)) ++ pageRecordsFrom (n + 1) ps

/-- All annotations of a document paired with their zero-based page
number, in page order then within-page order: the traversal order of the
nested loops in `extract_annotation_keys` (lines 85-89) and of the copy
loop (lines 310-316). -/
def pageRecords (doc : Document) : List (Nat × AnnotRec) :=
  pageRecordsFrom 0 doc

/-- The `AnnotationKey` built for one annotation (lines 91-96 and
318-323): rect rounded via `round_rect`, content defaulted to `''`. -/
def keyOf (pr : Nat × AnnotRec) : AnnotationKey :=
  { page := pr.1
    annot_type := pr.2.annot_type
    rect := round_rect pr.2.rect
    content := pr.2.content.getD "" }

/-- Keys of all annotations of a document, with multiplicity, in
traversal order. -/
def docKeys (doc : Document) : List AnnotationKey :=
  (pageRecords doc).map keyOf

/-- The key set of the dict built by `extract_annotation_keys`: one entry
per distinct `AnnotationKey` (the dict collapses records with equal
keys).  Only sizes and membership of this list are ever used, so the
order of `List.dedup` is immaterial. -/
def dedupKeys (doc : Document) : List AnnotationKey :=
  (docKeys doc).dedup

/-- Embeds the statistics dict of `merge_pdf_annotations`
(lines 256-262). -/
structure MergeStats where
  base_annotations : Nat
  merged_annotations : Nat
  failed_annotations : Nat
  duplicate_annotations : Nat
  files_processed : Nat
deriving DecidableEq, Repr

/-- The per-candidate copy loop (lines 310-334): walk the candidate's
annotations in page order; for a key in `unique` attempt the copy; on
success add the key to `seen` and bump `merged`, on failure bump
`failed`.  Note `unique` itself is never updated, exactly as in the
source. -/
def copyLoop (unique : List AnnotationKey) :
    List (Nat × AnnotRec) → List AnnotationKey → Nat → Nat →
      List AnnotationKey × Nat × Nat
  | [], seen, merged, failed => (seen, merged, failed)
  | r :: rs, seen, merged, failed =>
    let k := keyOf r
    if k ∈ unique then
      if r.2.copySucceeds then
        copyLoop unique rs (k :: seen) (merged + 1) failed
      else
        copyLoop unique rs seen merged (failed + 1)
    else
      copyLoop unique rs seen merged failed

/-- Processing of one candidate document (lines 285-338): compute the
distinct keys, the unique ones against the running `seen` set, run the
copy loop, and update the counters; the duplicate counter grows by
`len(source_keys) - len(unique_keys)` where `source_keys` is the dict
(distinct keys). -/
def processCandidate (st : List AnnotationKey × MergeStats) (cand : Document) :
    List AnnotationKey × MergeStats :=
  let sourceKeys := dedupKeys cand
  let uniqueKeys := sourceKeys.filter fun k => decide (¬ k ∈ st.1)
  let res := copyLoop uniqueKeys (pageRecords cand) st.1 0 0
  (res.1,
    { st.2 with
      merged_annotations := st.2.merged_annotations + res.2.1
      failed_annotations := st.2.failed_annotations + res.2.2
      duplicate_annotations :=
        st.2.duplicate_annotations + (sourceKeys.length - uniqueKeys.length) })

/-- Embeds `merge_pdf_annotations` (lines 241-366) at the record level:
repair/open are identities on the record model, the base document's dict
seeds `seen`, and each further input is processed in order.  Fewer than
two inputs raises `ValueError` (line 253-254), modelled as `.error`. -/
def merge_pdf_annotations (inputs : List Document) :
    Except String MergeStats :=
  match inputs with
  | base :: c :: rest =>
    let baseKeys := dedupKeys base
    let init : List AnnotationKey × MergeStats :=
      (baseKeys,
        { base_annotations := baseKeys.length
          merged_annotations := 0
          failed_annotations := 0
          duplicate_annotations := 0
          files_processed := inputs.length })
    .ok ((c :: rest).foldl processCandidate init).2
  | _ => .error "Need at least 2 input files to merge"

/-- A candidate's records that are unique against a seen set: distinct
keys not in `seen` (intra-document duplicate keys counted once, as the
dict collapses them). -/
def uniqueCount (seen : List AnnotationKey) (cand : Document) : Nat :=
  ((dedupKeys cand).filter fun k => decide (¬ k ∈ seen)).length

/-- Concrete document with one empty page (no annotations). -/
def docBase : Document := [[]]

/-- A concrete annotation record whose copy always succeeds. -/
def recHl : AnnotRec :=
  { annot_type := "Highlight", rect := (0, 0, 0, 0),
    content := some "x", copySucceeds := true }

/-- Concrete candidate document holding the same annotation twice on its
single page: two records with one shared fingerprint. -/
def docDup : Document := [[recHl, recHl]]

/-- Concrete record at rect `(0, 0, 0, 0.04)`. -/
def recA : AnnotRec :=
  { annot_type := "Highlight", rect := (0, 0, 0, 4/100),
    content := some "x", copySucceeds := true }

/-- Concrete record at rect `(0, 0, 0, 0.06)`: within `0.05` of `recA`
in every coordinate, yet on the other side of the `0.05` rounding
midpoint. -/
def recB : AnnotRec :=
  { annot_type := "Highlight", rect := (0, 0, 0, 6/100),
    content := some "x", copySucceeds := true }

/-- Concrete record at rect `(0, 0, 0, 0.5)`: at least `0.15` away from
`recHl` in the last coordinate. -/
def recC : AnnotRec :=
  { annot_type := "Highlight", rect := (0, 0, 0, 1/2),
    content := some "x", copySucceeds := true }

end PdfMerge

namespace XfdfImport

/-- A dynamically-typed Python value as stored under the `vertices` key
of an extracted annotation dict: a float or a nested list/tuple.
`xfdf_importer.py` probes these with `isinstance(..., (list, tuple))`
and `len(...)`. -/
inductive PyVal where
  | num (q : ℚ)
  | arr (l : List PyVal)

/-- Python truthiness of such a value: a number is truthy iff nonzero, a
sequence iff nonempty. -/
def PyVal.truthy : PyVal → Bool
  | .num q => decide (q ≠ 0)
  | .arr [] => false
  | .arr (_ :: _) => true

/-- Iterating or taking `len` of the value: raises `TypeError` (modelled
as `.error`) on a number. -/
def PyVal.seq : PyVal → Except Unit (List PyVal)
  | .arr l => .ok l
  | .num _ => .error ()

/-- Using the value as a float (`float(v)` or arithmetic on it): raises
on a sequence. -/
def PyVal.toFloat : PyVal → Except Unit ℚ
  | .num q => .ok q
  | .arr _ => .error ()

/-- Indexing `l[i]` followed by float use: `IndexError` out of range,
`TypeError` on a sequence element. -/
def getFloatAt (l : List PyVal) (i : Nat) : Except Unit ℚ :=
  match l.get? i with
  | some v => v.toFloat
  | none => .error ()

/-- An annotation dict in the PyMuPDF extraction format consumed by
`convert_pymupdf_to_pdf_annot` (xfdf_importer.py, lines 417-541).
Optional keys are `Option`s; keys read with `.get(key, default)` carry
the default as the Lean field default. -/
structure PyAnnot where
  type : String
  page : Nat := 0
  rect : ℚ × ℚ × ℚ × ℚ
  stroke_color : Option (List ℚ) := none
  fill_color : Option (List ℚ) := none
  author : Option String := none
  subject : Option String := none
  content : Option String := none
  opacity : ℚ := 1
  vertices : Option PyVal := none
  border_width : ℚ := 1
  flags : Int := 4

/-- A persisted PDF annotation dictionary, as built by
`create_annotation_dict` (lines 136-234) or
`convert_pymupdf_to_pdf_annot` (lines 417-541).  `Name` values are
modelled as strings, absent keys as `none`; `bsWidth` is the `W` entry
of the `BS` border-style dict (whose `S` entry is the constant
`/S`), `openFlag` the `Open` entry, `iconName` the `Name` entry. -/
structure PdfDict where
  subtype : String
  rect : List ℚ
  f : Int
  c : Option (List ℚ) := none
  nm : Option String := none
  t : Option String := none
  subj : Option String := none
  contents : Option String := none
  ca : Option ℚ := none
  creationDate : String
  m : String
  inkList : Option (List (List ℚ)) := none
  bsWidth : Option ℚ := none
  l : Option (List ℚ) := none
  quadPoints : Option (List ℚ) := none
  vertices : Option (List ℚ) := none
  openFlag : Option Bool := none
  iconName : Option String := none
deriving DecidableEq, Repr

/-- The `type_map` of `convert_pymupdf_to_pdf_annot` (lines 426-444):
unknown kinds fall back to `Text`. -/
def typeMapMu : String → String
  | "Text" => "Text"
  | "FreeText" => "FreeText"
  | "Highlight" => "Highlight"
  | "Underline" => "Underline"
  | "StrikeOut" => "StrikeOut"
  | "Squiggly" => "Squiggly"
  | "Ink" => "Ink"
  | "Line" => "Line"
  | "Square" => "Square"
  | "Circle" => "Circle"
  | "Polygon" => "Polygon"
  | "PolyLine" => "PolyLine"
  | "Stamp" => "Stamp"
  | "Caret" => "Caret"
  | "FileAttachment" => "FileAttachment"
  | _ => "Text"

/-- The `type_map` of `create_annotation_dict` (lines 143-159), keyed by
the lower-cased XFDF tag. -/
def typeMapX : String → String
  | "text" => "Text"
  | "freetext" => "FreeText"
  | "highlight" => "Highlight"
  | "underline" => "Underline"
  | "strikeout" => "StrikeOut"
  | "squiggly" => "Squiggly"
  | "ink" => "Ink"
  | "line" => "Line"
  | "square" => "Square"
  | "circle" => "Circle"
  | "polygon" => "Polygon"
  | "polyline" => "PolyLine"
  | "stamp" => "Stamp"
  | "caret" => "Caret"
  | "fileattachment" => "FileAttachment"
  | _ => "Text"

/-- Truthiness of an optional list value (`None` and `[]` are falsy). -/
def truthyList (o : Option (List ℚ)) : Bool :=
  match o with
  | some xs => decide (xs ≠ [])
  | none => false

/-- Truthiness of an optional string value (`None` and `''` falsy). -/
def truthyStr (o : Option String) : Bool :=
  match o with
  | some s => decide (s ≠ "")
  | none => false

/-- The shared per-entry flip loop of the quad-point branch
(lines 519-523) and the vertex branch (lines 529-533): entries that are
not sequences of length at least 2 are skipped; for the rest the x
coordinate is emitted as is and the y coordinate as
`page_height - y`. -/
def flipEntries (h : ℚ) : List PyVal → Except Unit (List ℚ)
  | [] => .ok []
  | .num _ :: vs => flipEntries h vs
  | .arr [] :: vs => flipEntries h vs
  | .arr [_] :: vs => flipEntries h vs
  | .arr (e0 :: e1 :: _) :: vs => do
    let x ← e0.toFloat
    let y ← e1.toFloat
    let rest ← flipEntries h vs
    .ok (x :: (h - y) :: rest)

/-- The ink-stroke loop (lines 491-498): each stroke is iterated (a
non-sequence stroke raises) and flipped per point; empty stroke arrays
are still appended. -/
def flipInk (h : ℚ) : List PyVal → Except Unit (List (List ℚ))
  | [] => .ok []
  | s :: ss => do
    let l ← s.seq
    let sa ← flipEntries h l
    let rest ← flipInk h ss
    .ok (sa :: rest)

/-- The type-specific geometry fields produced by the tail of
`convert_pymupdf_to_pdf_annot` (lines 488-539). -/
structure GeoFields where
  inkList : Option (List (List ℚ)) := none
  bsWidth : Option ℚ := none
  l : Option (List ℚ) := none
  quadPoints : Option (List ℚ) := none
  vertices : Option (List ℚ) := none
  openFlag : Option Bool := none
  iconName : Option String := none
deriving DecidableEq, Repr

/-- The `Line` branch (lines 507-515): requires a truthy vertex value of
length at least 2; `start` is `v[0]` when it is a sequence, else
`v[:2]`, and `end` is `v[1]` when it is a sequence, else `v[2:4]`; the
`L` array is `[s0, h - s1, e0, h - e1]`. -/
def lineGeo (h : ℚ) (l : List PyVal) : Except Unit GeoFields :=
  match l with
  | e0 :: e1 :: _ =>
    let startL : List PyVal :=
      match e0 with
      | .arr l0 => l0
      | .num _ => l.take 2
    let endL : List PyVal :=
      match e1 with
      | .arr l1 => l1
      | .num _ => (l.drop 2).take 2
    do
      let s0 ← getFloatAt startL 0
      let s1 ← getFloatAt startL 1
      let t0 ← getFloatAt endL 0
      let t1 ← getFloatAt endL 1
      .ok { l := some [s0, h - s1, t0, h - t1] }
  | _ => .ok {}

/-- The type-specific tail of `convert_pymupdf_to_pdf_annot`
(lines 488-539), producing the geometry fields of the dict. -/
def typeGeo (a : PyAnnot) (h : ℚ) : Except Unit GeoFields :=
  if a.type = "Ink" then
    match a.vertices with
    | some v =>
      if v.truthy then do
        let strokes ← v.seq
        let il ← flipInk h strokes
        .ok { inkList := some il, bsWidth := some a.border_width }
      else .ok { bsWidth := some a.border_width }
    | none => .ok { bsWidth := some a.border_width }
  else if a.type = "Line" then
    match a.vertices with
    | some v =>
      if v.truthy then do
        let l ← v.seq
        if l.length ≥ 2 then lineGeo h l else .ok {}
      else .ok {}
    | none => .ok {}
  else if a.type = "Highlight" ∨ a.type = "Underline" ∨
      a.type = "StrikeOut" ∨ a.type = "Squiggly" then
    match a.vertices with
    | some v =>
      if v.truthy then do
        let l ← v.seq
        let qp ← flipEntries h l
        if qp ≠ [] then .ok { quadPoints := some qp } else .ok {}
      else .ok {}
    | none => .ok {}
  else if a.type = "Polygon" ∨ a.type = "PolyLine" then
    match a.vertices with
    | some v =>
      if v.truthy then do
        let l ← v.seq
        let vs ← flipEntries h l
        if vs ≠ [] then .ok { vertices := some vs } else .ok {}
      else .ok {}
    | none => .ok {}
  else if a.type = "Text" then
    .ok { openFlag := some false, iconName := some "Comment" }
  else
    .ok {}

/-- Embeds `convert_pymupdf_to_pdf_annot` (lines 417-541).  `now` stands
for the formatted current time stamped into the date fields; `h` is the
target page height.  The rect is converted from screen to page
coordinates as `[x0, h - y1, x1, h - y0]`. -/
def convert_pymupdf_to_pdf_annot (now : String) (a : PyAnnot) (h : ℚ) :
    Except Unit PdfDict :=
  (typeGeo a h).map fun g =>
    { subtype := typeMapMu a.type
      rect := [a.rect.1, h - a.rect.2.2.2, a.rect.2.2.1, h - a.rect.2.1]
      f := a.flags
      c := if truthyList a.stroke_color then a.stroke_color
           else if truthyList a.fill_color then a.fill_color else none
      t := if truthyStr a.author then a.author else none
      subj := if truthyStr a.subject then a.subject else none
      contents := if truthyStr a.content then a.content else none
      ca := if a.opacity < 1 then some a.opacity else none
      creationDate := now
      m := now
      inkList := g.inkList
      bsWidth := g.bsWidth
      l := g.l
      quadPoints := g.quadPoints
      vertices := g.vertices
      openFlag := g.openFlag
      iconName := g.iconName }

/-- A parsed XFDF annotation as produced by `parse_xfdf` (lines 23-85)
and consumed by `create_annotation_dict`.  String attributes default to
`''`; type-specific keys that may be absent are `Option`s or default to
the empty list. -/
structure XfdfAnnot where
  type : String
  page : Nat := 0
  rect : List ℚ := [0, 0, 0, 0]
  name : String := ""
  color : List ℚ := [1, 1, 0]
  title : String := ""
  subject : String := ""
  opacity : ℚ := 1
  width : ℚ := 1
  flags : Int := 4
  contents : Option String := none
  inklist : List (List (ℚ × ℚ)) := []
  startPt : List ℚ := []
  endPt : List ℚ := []
  quadpoints : Option (List ℚ) := none
  vertices : Option (List ℚ) := none
deriving DecidableEq, Repr

/-- Embeds `build_ink_list` (lines 237-246): flattens each stroke's
points into an array of alternating x and y. -/
def build_ink_list (strokes : List (List (ℚ × ℚ))) : List (List ℚ) :=
  strokes.map fun s => (s.map fun p => [p.1, p.2]).flatten

/-- Python's `str.lower()` on the type tag, written char-wise (the same
function as `String.toLower`, stated this way so that it reduces). -/
def lowerString (s : String) : String :=
  String.mk (s.toList.map Char.toLower)

/-- Embeds `create_annotation_dict` (lines 136-234): builds the
persisted annotation dict from a parsed XFDF record, with no coordinate
flip (XFDF coordinates are already page-space). -/
def create_annotation_dict (now : String) (a : XfdfAnnot) : PdfDict :=
  let ty := lowerString a.type
  let base : PdfDict :=
    { subtype := typeMapX ty
      rect := a.rect
      f := a.flags
      c := if a.color ≠ [] then some a.color else none
      nm := if a.name ≠ "" then some a.name else none
      t := if a.title ≠ "" then some a.title else none
      subj := if a.subject ≠ "" then some a.subject else none
      contents := if truthyStr a.contents then a.contents else none
      ca := if a.opacity < 1 then some a.opacity else none
      creationDate := now
      m := now }
  if ty = "ink" then
    let il := build_ink_list a.inklist
    { base with inkList := if il ≠ [] then some il else none
                bsWidth := some a.width }
  else if ty = "line" then
    if a.startPt ≠ [] ∧ a.endPt ≠ [] then
      { base with l := some (a.startPt ++ a.endPt) }
    else base
  else if ty = "highlight" ∨ ty = "underline" ∨
      ty = "strikeout" ∨ ty = "squiggly" then
    match a.quadpoints with
    | some qp => if qp ≠ [] then { base with quadPoints := some qp } else base
    | none => base
  else if ty = "polygon" ∨ ty = "polyline" then
    match a.vertices with
    | some vs => if vs ≠ [] then { base with vertices := some vs } else base
    | none => base
  else if ty = "square" ∨ ty = "circle" then
    { base with bsWidth := some a.width }
  else if ty = "text" then
    { base with openFlag := some false, iconName := some "Comment" }
  else base

/-- One entry of a page's `/Annots` array: either an annotation object
that was already there (identified opaquely) or a newly created one. -/
inductive AnnotEntry where
  | existing (id : Nat)
  | imported (d : PdfDict)
deriving DecidableEq, Repr

/-- The value found under a page's `/Annots` key: a proper array, or
something that is not iterable (the `except TypeError` path of
lines 305-308 and 388-393). -/
inductive AnnotsVal where
  | arr (items : List AnnotEntry)
  | nonIterable
deriving DecidableEq, Repr

/-- A page of the target document as the importer observes it. -/
structure PdfPage where
  mediaBox : Option (ℚ × ℚ × ℚ × ℚ) := none
  annots : Option AnnotsVal := none
deriving DecidableEq, Repr

/-- The target document: its raw bytes and its parsed pages. -/
structure PdfFile where
  bytes : List Nat
  pages : List PdfPage
deriving DecidableEq, Repr

/-- The `annots_array` seeded from a page (lines 301-308 and 383-393):
the items of an existing `/Annots` array in order; an absent key or a
non-iterable value yields the empty seed. -/
def existingEntries (p : PdfPage) : List AnnotEntry :=
  match p.annots with
  | some (.arr items) => items
  | some .nonIterable => []
  | none => []

/-- The page height used by `import_annotations_direct`
(lines 377-381): `MediaBox[3] - MediaBox[1]`, defaulting to `792.0`
when the media box is absent. -/
def pageHeightOf (p : PdfPage) : ℚ :=
  match p.mediaBox with
  | some mb => mb.2.2.2 - mb.2.1
  | none => 792

/-- Appends `a` to the group keyed `p`, creating the group at the end if
absent: the effect of `by_page.setdefault(page_num, []).append(annot)`
on an insertion-ordered dict. -/
def insertGroup {α : Type} (gs : List (Nat × List α)) (p : Nat) (a : α) :
    List (Nat × List α) :=
  match gs with
  | [] => [(p, [a])]
  | g :: rest =>
    if g.1 = p then (g.1, g.2 ++ [a]) :: rest
    else g :: insertGroup rest p a

/-- Groups annotations by page (lines 284-288 and 362-366), preserving
the dict's insertion order of pages and the input order within each
page. -/
def groupByPage {α : Type} (pageOf : α → Nat) (l : List α) :
    List (Nat × List α) :=
  l.foldl (fun gs a => insertGroup gs (pageOf a) a) []

/-- Looks up the group with the given page key. -/
def findGroup {α : Type} (gs : List (Nat × List α)) (p : Nat) :
    Option (List α) :=
  match gs with
  | [] => none
  | g :: rest => if g.1 = p then some g.2 else findGroup rest p

/-- Processing of one page group by `import_xfdf_to_pdf`
(lines 293-323): an out-of-range page is skipped with a warning; an
in-range page gets its `/Annots` array rebuilt as the existing entries
followed by the new annotation objects, and the imported counter grows
by the group size. -/
def addXfdfGroup (now : String) (st : List PdfPage × Nat)
    (g : Nat × List XfdfAnnot) : List PdfPage × Nat :=
  if h : g.1 < st.1.length then
    let page := st.1.get ⟨g.1, h⟩
    let news := g.2.map fun a =>
      AnnotEntry.imported (create_annotation_dict now a)
    (st.1.set g.1
      { page with annots := some (.arr (existingEntries page ++ news)) },
     st.2 + g.2.length)
  else (st.1, st.2)

/-- The page-modification core of `import_xfdf_to_pdf` (lines 272-333):
with no annotations the pages are untouched; otherwise each page group
is applied in order. -/
def xfdfCore (now : String) (pdf : PdfFile) (annots : List XfdfAnnot) :
    List PdfPage × Nat :=
  (groupByPage XfdfAnnot.page annots).foldl (addXfdfGroup now) (pdf.pages, 0)

/-- Embeds `import_xfdf_to_pdf` (lines 254-333) from the parsed
annotation list on: an empty list short-circuits to a byte-for-byte copy
of the input file without opening the document (the returned flag
records whether the document was opened); otherwise the modified pages
are serialized by the external `save`.  Returns (count, output bytes,
opened). -/
def import_xfdf_to_pdf (now : String) (save : List PdfPage → List Nat)
    (pdf : PdfFile) (annots : List XfdfAnnot) : Nat × List Nat × Bool :=
  if annots = [] then (0, pdf.bytes, false)
  else
    let st := xfdfCore now pdf annots
    (st.2, save st.1, true)

/-- Processing of one page group by `import_annotations_direct`
(lines 370-409): out-of-range pages are skipped silently; otherwise each
annotation is converted at the page's height and appended after the
existing entries.  A conversion failure propagates (there is no handler
around `convert_pymupdf_to_pdf_annot`). -/
def addDirectGroup (now : String) (st : List PdfPage × Nat)
    (g : Nat × List PyAnnot) : Except Unit (List PdfPage × Nat) :=
  if h : g.1 < st.1.length then
    (g.2.mapM fun a =>
      (convert_pymupdf_to_pdf_annot now a
        (pageHeightOf (st.1.get ⟨g.1, h⟩))).map AnnotEntry.imported).map
      fun news =>
        (st.1.set g.1
          { st.1.get ⟨g.1, h⟩ with
            annots :=
              some (.arr (existingEntries (st.1.get ⟨g.1, h⟩) ++ news)) },
         st.2 + g.2.length)
  else .ok (st.1, st.2)

/-- The page-modification core of `import_annotations_direct`: each page
group applied in order, with failure propagation. -/
def directCore (now : String) (pdf : PdfFile) (annots : List PyAnnot) :
    Except Unit (List PdfPage × Nat) :=
  (groupByPage PyAnnot.page annots).foldlM (addDirectGroup now)
    (pdf.pages, 0)

/-- Embeds `import_annotations_direct` (lines 336-414): an empty list
short-circuits to a byte-for-byte copy without opening the document;
otherwise the groups are processed in order and the result saved. -/
def import_annotations_direct (now : String)
    (save : List PdfPage → List Nat) (pdf : PdfFile)
    (annots : List PyAnnot) : Except Unit (Nat × List Nat × Bool) :=
  match annots with
  | [] => .ok (0, pdf.bytes, false)
  | _ => do
    let st ← directCore now pdf annots
    .ok (st.2, save st.1, true)

/-- The total weight of the in-range groups: what the imported counter
accumulates. -/
def groupWeight {α : Type} (n : Nat) (gs : List (Nat × List α)) : Nat :=
  (gs.map fun g => if g.1 < n then g.2.length else 0).sum

/-- Concrete parsed XFDF polygon with an empty vertex list. -/
def polyX : XfdfAnnot := { type := "polygon", vertices := some [] }

/-- Concrete extracted polygon record with an empty vertex list. -/
def polyP : PyAnnot :=
  { type := "Polygon", rect := (0, 0, 0, 0), vertices := some (.arr []) }

/-- The value of one hexadecimal digit character, read off its code
point (digits, then the lowercase and the uppercase letter ranges). -/
def hexVal (c : Char) : Option Nat :=
  if 48 ≤ c.toNat ∧ c.toNat ≤ 57 then some (c.toNat - 48)
  else if 97 ≤ c.toNat ∧ c.toNat ≤ 102 then some (c.toNat - 87)
  else if 65 ≤ c.toNat ∧ c.toNat ≤ 70 then some (c.toNat - 55)
  else none

/-- `int(s, 16)` on a two-character slice: the Python call raises
`ValueError` (modelled as `.error`) unless the slice is a base-16
numeral.  Python additionally tolerates a few exotic numeral forms
(sign characters, surrounding whitespace) that the model treats as
invalid; no claim below depends on those. -/
def hexByte (c1 c2 : Char) : Except Unit Nat :=
  match hexVal c1, hexVal c2 with
  | some x, some y => .ok (16 * x + y)
  | _, _ => .error ()

/-- Embeds `parse_color` (xfdf_importer.py, lines 98-109): absent input,
input not starting with `#`, or a `#` payload whose length is not 6
yield the default yellow `[1, 1, 0]`; a six-character payload is decoded
as three hex bytes scaled into `[0, 1]` — and a non-hex payload of
length 6 makes `int(_, 16)` raise. -/
def parse_color (colorStr : Option String) : Except Unit (List ℚ) :=
  match colorStr with
  | none => .ok [1, 1, 0]
  | some s =>
    match s.toList with
    | [] => .ok [1, 1, 0]
    | c :: rest =>
      if c ≠ '#' then .ok [1, 1, 0]
      else
        match rest with
        | [d1, d2, d3, d4, d5, d6] => do
          let r ← hexByte d1 d2
          let g ← hexByte d3 d4
          let b ← hexByte d5 d6
          .ok [(r : ℚ) / 255, (g : ℚ) / 255, (b : ℚ) / 255]
        | _ => .ok [1, 1, 0]

/-- Concrete target page with a letter-size media box and one existing
annotation entry. -/
def pageEx : PdfPage :=
  { mediaBox := some (0, 0, 612, 792), annots := some (.arr [.existing 7]) }

/-- Concrete one-page target file. -/
def pdfEx : PdfFile := { bytes := [37, 80, 68, 70], pages := [pageEx] }

/-- Concrete square record for import witnesses. -/
def pyEx : PyAnnot := { type := "Square", page := 0, rect := (1, 2, 3, 4) }

/-- Concrete highlight XFDF record on page 0. -/
def xfdfEx : XfdfAnnot := { type := "highlight", page := 0, rect := [1, 2, 3, 4] }

/-- A 2d point as the dynamic value `[x, y]`. -/
def ptVal (p : ℚ × ℚ) : PyVal := .arr [.num p.1, .num p.2]

/-- A point list as the dynamic value `[[x, y], ...]`. -/
def ptsVal (ps : List (ℚ × ℚ)) : PyVal := .arr (ps.map ptVal)

/-- An ink stroke list as the dynamic value `[[[x, y], ...], ...]`. -/
def strokesVal (ss : List (List (ℚ × ℚ))) : PyVal :=
  .arr (ss.map ptsVal)

/-- The dict that `convert_pymupdf_to_pdf_annot` builds for `pyEx` at
page height 792. -/
def dEx : PdfDict :=
  { subtype := "Square", rect := [1, 792 - 4, 3, 792 - 2], f := 4,
    creationDate := "D:1", m := "D:1" }

end XfdfImport

namespace PdfMerge

/-! ## Theorems -/

/-- Helper: with an empty `unique` set the copy loop changes nothing. -/
theorem copyLoop_nil_unique (rs : List (Nat × AnnotRec))
    (seen : List AnnotationKey) (m f : Nat) :
    copyLoop [] rs seen m f = (seen, m, f) := by
  induction rs with
  | nil => rfl
  | cons r rs ih => simp [copyLoop, ih]

/-- Helper: filtering a list by non-membership in itself gives `[]`. -/
theorem filter_not_mem_self (l : List AnnotationKey) :
    (l.filter fun k => !decide (k ∈ l)) = [] := by
  apply List.filter_eq_nil_iff.2
  intro k hk
  simp [hk]

/-- Helper: rounding the zero rect gives the zero rect. -/
theorem round_rect_zero : round_rect (0, 0, 0, 0) = (0, 0, 0, 0) := by
  norm_num [round_rect, roundTenth, round_eq]

/-- Helper: the failed counter returned by the copy loop is the incoming
value plus the number of records whose key is in `unique` and whose copy
fails. -/
theorem copyLoop_failed (unique : List AnnotationKey)
    (rs : List (Nat × AnnotRec)) (seen : List AnnotationKey) (m f : Nat) :
    (copyLoop unique rs seen m f).2.2 =
      f + (rs.filter fun r =>
        decide (keyOf r ∈ unique) && !r.2.copySucceeds).length := by
  induction rs generalizing seen m f with
  | nil => simp [copyLoop]
  | cons r rs ih =>
    cases hc : r.2.copySucceeds with
    | true =>
      by_cases hk : keyOf r ∈ unique
      · simp [copyLoop, hk, hc, ih, List.filter_cons]
      · simp [copyLoop, hk, hc, ih, List.filter_cons]
    | false =>
      by_cases hk : keyOf r ∈ unique
      · simp only [copyLoop, hk, if_true, hc, Bool.false_eq_true, if_false,
          ih, List.filter_cons]
        simp [hk]
        omega
      · simp [copyLoop, hk, hc, ih, List.filter_cons]

/-- C4: merging a document with itself as the sole candidate produces
zero merged annotations, zero failures, and a duplicate count equal to
the reported base annotation count (the size of the base fingerprint
dict); the statistics are computed exactly. -/
theorem merge_self_stats (A : Document) :
    merge_pdf_annotations [A, A] =
      .ok { base_annotations := (dedupKeys A).length
            merged_annotations := 0
            failed_annotations := 0
            duplicate_annotations := (dedupKeys A).length
            files_processed := 2 } := by
  simp [merge_pdf_annotations, processCandidate, filter_not_mem_self,
    copyLoop_nil_unique]

/-- C1 counterexample: against an empty base, a candidate holding the
same annotation twice (two records, one fingerprint) makes the run
increment the duplicate counter by `0`, while the claimed formula
`|candidate.records| - |unique|` gives `2 - 1 = 1`. -/
theorem dup_counter_cx :
    merge_pdf_annotations [docBase, docDup] =
      .ok { base_annotations := 0, merged_annotations := 2
            failed_annotations := 0, duplicate_annotations := 0
            files_processed := 2 } ∧
    (pageRecords docDup).length - uniqueCount (dedupKeys docBase) docDup = 1 ∧
    (0 : Nat) ≠ 1 := by
  refine ⟨?_, ?_, by decide⟩
  · simp [merge_pdf_annotations, processCandidate, docBase, docDup, recHl,
      dedupKeys, docKeys, pageRecords, pageRecordsFrom, keyOf, copyLoop,
      round_rect_zero, uniqueCount]
  · simp [uniqueCount, docBase, docDup, recHl, dedupKeys, docKeys,
      pageRecords, pageRecordsFrom, keyOf, round_rect_zero]

/-- C1 amended: for every merge run and candidate document, the
duplicate counter is incremented by the number of the candidate's
distinct fingerprints minus the number of unique ones — equivalently, by
the number of its distinct fingerprints already in the running seen set.
Intra-document duplicate records count once (the fingerprint dict
collapses them), but records, as opposed to distinct fingerprints, are
not what the counter subtracts from. -/
theorem dup_counter_amended (seen : List AnnotationKey) (stats : MergeStats)
    (cand : Document) :
    (processCandidate (seen, stats) cand).2.duplicate_annotations =
      stats.duplicate_annotations +
        ((dedupKeys cand).filter fun k => decide (k ∈ seen)).length := by
  have hsplit := List.length_eq_length_filter_add
    (l := dedupKeys cand) (fun k => decide (k ∈ seen))
  simp only [processCandidate]
  have hneg : ((dedupKeys cand).filter fun k => decide (¬ k ∈ seen)) =
      ((dedupKeys cand).filter fun k => ! decide (k ∈ seen)) := by
    simp [decide_not]
  rw [hneg]
  omega

/-- C7: the merge fails as a whole exactly when fewer than two inputs are
supplied; with at least two inputs it always returns statistics (no
per-annotation copy failure aborts the run), and the copy loop turns
each failed copy into a failed-counter increment while continuing. -/
theorem merge_error_containment (inputs : List Document)
    (unique : List AnnotationKey) (rs : List (Nat × AnnotRec))
    (seen : List AnnotationKey) (m f : Nat) :
    (inputs.length < 2 →
      merge_pdf_annotations inputs =
        .error "Need at least 2 input files to merge") ∧
    (2 ≤ inputs.length → ∃ s, merge_pdf_annotations inputs = .ok s) ∧
    ((copyLoop unique rs seen m f).2.2 =
      f + (rs.filter fun r =>
        decide (keyOf r ∈ unique) && !r.2.copySucceeds).length) := by
  refine ⟨?_, ?_, copyLoop_failed unique rs seen m f⟩
  · intro hlt
    match inputs with
    | [] => rfl
    | [a] => rfl
    | a :: b :: rest => simp at hlt; omega
  · intro hge
    match inputs with
    | [] => simp at hge
    | [a] => simp at hge
    | a :: b :: rest => exact ⟨_, rfl⟩

/-- Helper: rounding to one decimal moves a value by at most `1/20`. -/
theorem abs_sub_roundTenth (x : ℚ) : |x - roundTenth x| ≤ 1 / 20 := by
  have h := abs_sub_round (10 * x)
  have e : x - roundTenth x = (10 * x - (round (10 * x) : ℚ)) / 10 := by
    rw [roundTenth]; ring
  rw [e, abs_div, abs_of_pos (by norm_num : (0 : ℚ) < 10)]
  linarith

/-- Helper: values with equal one-decimal roundings are within `1/10` of
each other. -/
theorem roundTenth_close (x y : ℚ) (h : roundTenth x = roundTenth y) :
    |x - y| ≤ 1 / 10 := by
  have hx := abs_sub_roundTenth x
  have hy := abs_sub_roundTenth y
  have e : x - y = (x - roundTenth x) + (roundTenth y - y) := by
    rw [h]; ring
  have habs : |x - y| ≤ |x - roundTenth x| + |roundTenth y - y| := by
    rw [e]; exact abs_add _ _
  have hy' : |roundTenth y - y| ≤ 1 / 20 := by rw [abs_sub_comm]; exact hy
  linarith

/-- C3 counterexample: two same-page, same-kind, same-content records at
rects `(0,0,0,0.04)` and `(0,0,0,0.06)` differ by less than `0.05` in
every coordinate, yet their fingerprints are unequal: the rounding
midpoint `0.05` lies between the last coordinates. -/
theorem fingerprint_rounding_cx :
    (|recA.rect.1 - recB.rect.1| < 5 / 100 ∧
     |recA.rect.2.1 - recB.rect.2.1| < 5 / 100 ∧
     |recA.rect.2.2.1 - recB.rect.2.2.1| < 5 / 100 ∧
     |recA.rect.2.2.2 - recB.rect.2.2.2| < 5 / 100) ∧
    recA.annot_type = recB.annot_type ∧ recA.content = recB.content ∧
    keyOf (0, recA) ≠ keyOf (0, recB) := by
  refine ⟨by norm_num [recA, recB, abs_lt], rfl, rfl, ?_⟩
  intro hkey
  have h4 := congrArg (fun k => k.rect.2.2.2) hkey
  simp [keyOf, recA, recB, round_rect] at h4
  norm_num [roundTenth, round_eq] at h4

/-- C3 amended: fingerprints of same-page, same-kind, same-content
records are equal whenever the rects round equal componentwise at one
decimal, and unequal whenever some coordinate differs by at least
`0.15`; proximity below `0.05` alone does not guarantee equality. -/
theorem fingerprint_rounding_amended (p : Nat) (a b : AnnotRec)
    (hty : a.annot_type = b.annot_type) (hct : a.content = b.content) :
    (round_rect a.rect = round_rect b.rect → keyOf (p, a) = keyOf (p, b)) ∧
    ((15 / 100 ≤ |a.rect.1 - b.rect.1| ∨
      15 / 100 ≤ |a.rect.2.1 - b.rect.2.1| ∨
      15 / 100 ≤ |a.rect.2.2.1 - b.rect.2.2.1| ∨
      15 / 100 ≤ |a.rect.2.2.2 - b.rect.2.2.2|) →
      keyOf (p, a) ≠ keyOf (p, b)) := by
  constructor
  · intro hr
    simp [keyOf, hty, hct, hr]
  · intro hd hkey
    have hr : round_rect a.rect = round_rect b.rect :=
      congrArg AnnotationKey.rect hkey
    simp only [round_rect, Prod.mk.injEq] at hr
    obtain ⟨h1, h2, h3, h4⟩ := hr
    rcases hd with h | h | h | h
    · have hc := roundTenth_close _ _ h1; linarith
    · have hc := roundTenth_close _ _ h2; linarith
    · have hc := roundTenth_close _ _ h3; linarith
    · have hc := roundTenth_close _ _ h4; linarith

/-- Witness for the amended C3 at concrete records: equal-rect records
fingerprint equal; records `0.5` apart in one coordinate fingerprint
unequal. -/
theorem fingerprint_rounding_amended_witness :
    keyOf (0, recHl) = keyOf (0, recHl) ∧ keyOf (0, recHl) ≠ keyOf (0, recC) :=
  ⟨(fingerprint_rounding_amended 0 recHl recHl rfl rfl).1 rfl,
   (fingerprint_rounding_amended 0 recHl recC rfl rfl).2
     (Or.inr (Or.inr (Or.inr (by norm_num [recHl, recC, le_abs]))))⟩

/-- Witness for C7 at concrete inputs: one input is rejected, two inputs
give statistics. -/
theorem merge_error_containment_witness :
    (merge_pdf_annotations [docBase] =
      .error "Need at least 2 input files to merge") ∧
    (∃ s, merge_pdf_annotations [docBase, docDup] = .ok s) :=
  ⟨(merge_error_containment [docBase] [] [] [] 0 0).1 (by decide),
   (merge_error_containment [docBase, docDup] [] [] [] 0 0).2.1 (by decide)⟩

end PdfMerge

namespace XfdfImport

/-- C9: with an empty parsed annotation list both import entry points
return 0 and hand back the input file's bytes unchanged, without opening
the document (the boolean flag of the model records opening). -/
theorem import_empty_copies_bytes (now : String)
    (save : List PdfPage → List Nat) (pdf : PdfFile) :
    import_xfdf_to_pdf now save pdf [] = (0, pdf.bytes, false) ∧
    import_annotations_direct now save pdf [] = .ok (0, pdf.bytes, false) :=
  ⟨rfl, rfl⟩

/-- C6 counterexample: on `"#gggggg"` — a `#` followed by six non-hex
characters — the colour parser raises (`int('gg', 16)` fails) instead of
returning the default yellow. -/
theorem parse_color_cx :
    parse_color (some "#gggggg") = .error () ∧
    parse_color (some "#gggggg") ≠ .ok [1, 1, 0] := by
  refine ⟨rfl, ?_⟩
  intro h
  have h2 : (Except.error () : Except Unit (List ℚ)) = .ok [1, 1, 0] :=
    (rfl : parse_color (some "#gggggg") = Except.error ()).symm.trans h
  exact Except.noConfusion h2

/-- Helper: a hex digit's value is at most 15. -/
theorem hexVal_le_15 {c : Char} {v : Nat} (h : hexVal c = some v) :
    v ≤ 15 := by
  unfold hexVal at h
  split at h
  · rename_i hc
    injection h with h
    omega
  · split at h
    · rename_i hc
      injection h with h
      omega
    · split at h
      · rename_i hc
        injection h with h
        omega
      · exact Option.noConfusion h

/-- Helper: a byte value scaled by 255 lies in the unit interval. -/
theorem byte_scaled_mem_unit (n : ℕ) (hn : n ≤ 255) :
    0 ≤ ((n : ℚ) / 255) ∧ ((n : ℚ) / 255) ≤ 1 := by
  constructor
  · positivity
  · rw [div_le_one (by norm_num : (0 : ℚ) < 255)]
    exact_mod_cast hn

/-- C6 amended: the parser returns yellow for absent input, input not
starting with `#`, and `#` payloads whose length is not 6; it decodes a
six-hex-digit payload into an RGB triple with every component in
`[0, 1]`; but for a `#` plus six characters that are not a hex numeral
it raises instead of returning yellow, so it is not total in the
claimed sense. -/
theorem parse_color_amended (s : String) (c : Char) (rest : List Char)
    (d1 d2 d3 d4 d5 d6 : Char) (v1 v2 v3 v4 v5 v6 : Nat) :
    (parse_color none = .ok [1, 1, 0]) ∧
    (s.toList = [] → parse_color (some s) = .ok [1, 1, 0]) ∧
    (s.toList = c :: rest → c ≠ '#' → parse_color (some s) = .ok [1, 1, 0]) ∧
    (s.toList = '#' :: rest → rest.length ≠ 6 →
      parse_color (some s) = .ok [1, 1, 0]) ∧
    (s.toList = ['#', d1, d2, d3, d4, d5, d6] →
      hexVal d1 = some v1 → hexVal d2 = some v2 → hexVal d3 = some v3 →
      hexVal d4 = some v4 → hexVal d5 = some v5 → hexVal d6 = some v6 →
      parse_color (some s) =
        .ok [((16 * v1 + v2 : ℕ) : ℚ) / 255, ((16 * v3 + v4 : ℕ) : ℚ) / 255,
             ((16 * v5 + v6 : ℕ) : ℚ) / 255] ∧
      ∀ q ∈ [((16 * v1 + v2 : ℕ) : ℚ) / 255, ((16 * v3 + v4 : ℕ) : ℚ) / 255,
             ((16 * v5 + v6 : ℕ) : ℚ) / 255], 0 ≤ q ∧ q ≤ 1) := by
  refine ⟨rfl, ?_, ?_, ?_, ?_⟩
  · intro h
    rw [String.toList] at h
    simp [parse_color, h]
  · intro h hc
    rw [String.toList] at h
    simp [parse_color, h, hc]
  · intro h hl
    rw [String.toList] at h
    simp only [parse_color, String.toList, h]
    rw [if_neg (by simp)]
    match rest, hl with
    | [], _ => rfl
    | [_], _ => rfl
    | [_, _], _ => rfl
    | [_, _, _], _ => rfl
    | [_, _, _, _], _ => rfl
    | [_, _, _, _, _], _ => rfl
    | [_, _, _, _, _, _], hl => exact absurd rfl hl
    | _ :: _ :: _ :: _ :: _ :: _ :: _ :: _, _ => rfl
  · intro h h1 h2 h3 h4 h5 h6
    rw [String.toList] at h
    constructor
    · simp only [parse_color, String.toList, h, hexByte, h1, h2, h3, h4,
        h5, h6]
      rfl
    · intro q hq
      have b1 := byte_scaled_mem_unit (16 * v1 + v2)
        (by have := hexVal_le_15 h1; have := hexVal_le_15 h2; omega)
      have b2 := byte_scaled_mem_unit (16 * v3 + v4)
        (by have := hexVal_le_15 h3; have := hexVal_le_15 h4; omega)
      have b3 := byte_scaled_mem_unit (16 * v5 + v6)
        (by have := hexVal_le_15 h5; have := hexVal_le_15 h6; omega)
      simp only [List.mem_cons, List.not_mem_nil, or_false] at hq
      rcases hq with rfl | rfl | rfl
      · exact b1
      · exact b2
      · exact b3

/-- Witness for the amended C6 at `"#ff8800"` and at an absent input. -/
theorem parse_color_amended_witness :
    parse_color (some "#ff8800") =
      .ok [((16 * 15 + 15 : ℕ) : ℚ) / 255, ((16 * 8 + 8 : ℕ) : ℚ) / 255,
           ((16 * 0 + 0 : ℕ) : ℚ) / 255] ∧
    parse_color none = .ok [1, 1, 0] :=
  ⟨((parse_color_amended "#ff8800" '#' [] 'f' 'f' '8' '8' '0' '0'
      15 15 8 8 0 0).2.2.2.2 rfl rfl rfl rfl rfl rfl rfl).1,
   (parse_color_amended "" '#' [] '0' '0' '0' '0' '0' '0'
      0 0 0 0 0 0).1⟩

/-- C2 counterexample: a Polygon record with an empty vertex list
translates successfully — no error, nothing counted failed — into a
persisted Polygon dictionary with no `Vertices` entry, on both
translation paths. -/
theorem empty_polygon_cx :
    (convert_pymupdf_to_pdf_annot "D:1" polyP 792).map PdfDict.subtype =
      .ok "Polygon" ∧
    (convert_pymupdf_to_pdf_annot "D:1" polyP 792).map PdfDict.vertices =
      .ok none ∧
    (create_annotation_dict "D:1" polyX).subtype = "Polygon" ∧
    (create_annotation_dict "D:1" polyX).vertices = none :=
  ⟨rfl, rfl, rfl, rfl⟩

/-- C2 amended: for every Polygon or Polyline record whose vertex list
is empty or absent, translation succeeds (no `EmptyGeometry` failure
exists in the code) and the persisted annotation simply omits the
`Vertices` entry while keeping the Polygon/Polyline subtype. -/
theorem empty_polygon_amended (now : String) (a : XfdfAnnot) (b : PyAnnot)
    (h : ℚ)
    (ha : lowerString a.type = "polygon" ∨ lowerString a.type = "polyline")
    (hav : a.vertices = none ∨ a.vertices = some [])
    (hb : b.type = "Polygon" ∨ b.type = "PolyLine")
    (hbv : b.vertices = none ∨ b.vertices = some (.arr [])) :
    (create_annotation_dict now a).vertices = none ∧
    (convert_pymupdf_to_pdf_annot now b h).map PdfDict.vertices =
      .ok none ∧
    (convert_pymupdf_to_pdf_annot now b h).map PdfDict.subtype =
      .ok b.type := by
  have hg : typeGeo b h = Except.ok {} := by
    rcases hb with hb | hb <;> rcases hbv with hbv | hbv <;>
      simp [typeGeo, hb, hbv, PyVal.truthy]
  refine ⟨?_, ?_, ?_⟩
  · rcases ha with ha | ha <;> rcases hav with hav | hav <;>
      simp [create_annotation_dict, ha, hav]
  · simp [convert_pymupdf_to_pdf_annot, hg, Except.map]
  · rcases hb with hb | hb <;>
      simp [convert_pymupdf_to_pdf_annot, hg, Except.map, typeMapMu, hb]

/-- Helper: binding a success just applies the continuation. -/
theorem exceptBind_ok {α β : Type} (a : α) (f : α → Except Unit β) :
    (Except.ok a >>= f : Except Unit β) = f a := rfl

/-- Helper: the entry flip loop on a list of proper 2d points flips
every y coordinate and keeps every x. -/
theorem flipEntries_pts (h : ℚ) (ps : List (ℚ × ℚ)) :
    flipEntries h (ps.map ptVal) =
      .ok (ps.flatMap fun p => [p.1, h - p.2]) := by
  induction ps with
  | nil => rfl
  | cons p ps ih =>
    simp [ptVal, flipEntries, PyVal.toFloat, exceptBind_ok, ih]

/-- Helper: the ink flip loop flips every point of every stroke. -/
theorem flipInk_strokes (h : ℚ) (ss : List (List (ℚ × ℚ))) :
    flipInk h (ss.map ptsVal) =
      .ok (ss.map fun s => s.flatMap fun p => [p.1, h - p.2]) := by
  induction ss with
  | nil => rfl
  | cons s ss ih =>
    simp [ptsVal, flipInk, PyVal.seq, flipEntries_pts, exceptBind_ok, ih]

/-- C5: the translator flips every point-valued field by
`y' = page_height - y` — the rect corners (keeping the rect well-formed
when the screen rect was), the polygon and polyline vertices, the quad
points, the ink stroke points and the line endpoints — and the page
height is the target page's media-box height, defaulting to 792 when
the media box is absent. -/
theorem translator_flip (now : String) (a : PyAnnot)
    (mb : ℚ × ℚ × ℚ × ℚ) (pg : PdfPage) (h : ℚ) (d : PdfDict)
    (ps : List (ℚ × ℚ)) (ss : List (List (ℚ × ℚ))) (s e : ℚ × ℚ)
    (rest : List PyVal) :
    (pageHeightOf { pg with mediaBox := some mb } = mb.2.2.2 - mb.2.1) ∧
    (pageHeightOf { pg with mediaBox := none } = 792) ∧
    (convert_pymupdf_to_pdf_annot now a h = .ok d →
      d.rect = [a.rect.1, h - a.rect.2.2.2, a.rect.2.2.1, h - a.rect.2.1]) ∧
    (convert_pymupdf_to_pdf_annot now a h = .ok d →
      a.rect.2.1 ≤ a.rect.2.2.2 →
      ∃ x0 y0 x1 y1, d.rect = [x0, y0, x1, y1] ∧ y0 ≤ y1) ∧
    (ps ≠ [] →
      (convert_pymupdf_to_pdf_annot now
          { a with type := "Polygon", vertices := some (ptsVal ps) } h).map
        PdfDict.vertices =
        .ok (some (ps.flatMap fun p => [p.1, h - p.2]))) ∧
    (ps ≠ [] →
      (convert_pymupdf_to_pdf_annot now
          { a with type := "Highlight", vertices := some (ptsVal ps) } h).map
        PdfDict.quadPoints =
        .ok (some (ps.flatMap fun p => [p.1, h - p.2]))) ∧
    (ss ≠ [] →
      (convert_pymupdf_to_pdf_annot now
          { a with type := "Ink", vertices := some (strokesVal ss) } h).map
        PdfDict.inkList =
        .ok (some (ss.map fun s1 => s1.flatMap fun p => [p.1, h - p.2]))) ∧
    ((convert_pymupdf_to_pdf_annot now
          { a with type := "Line",
                   vertices := some (.arr (ptVal s :: ptVal e :: rest)) }
          h).map PdfDict.l =
      .ok (some [s.1, h - s.2, e.1, h - e.2])) := by
  have hrect : convert_pymupdf_to_pdf_annot now a h = .ok d →
      d.rect = [a.rect.1, h - a.rect.2.2.2, a.rect.2.2.1, h - a.rect.2.1] := by
    intro hc
    cases hty : typeGeo a h with
    | error err =>
      rw [convert_pymupdf_to_pdf_annot, hty] at hc
      exact Except.noConfusion hc
    | ok g =>
      rw [convert_pymupdf_to_pdf_annot, hty] at hc
      simp only [Except.map, Except.ok.injEq] at hc
      rw [← hc]
  refine ⟨rfl, rfl, hrect, ?_, ?_, ?_, ?_, ?_⟩
  · intro hc hwf
    refine ⟨a.rect.1, h - a.rect.2.2.2, a.rect.2.2.1, h - a.rect.2.1,
      hrect hc, by linarith⟩
  · intro hps
    rcases ps with _ | ⟨p, ps⟩
    · exact absurd rfl hps
    · have hfe := flipEntries_pts h (p :: ps)
      simp only [List.map_cons] at hfe
      simp [convert_pymupdf_to_pdf_annot, typeGeo, ptsVal, PyVal.truthy,
        PyVal.seq, exceptBind_ok, Except.map, hfe]
  · intro hps
    rcases ps with _ | ⟨p, ps⟩
    · exact absurd rfl hps
    · have hfe := flipEntries_pts h (p :: ps)
      simp only [List.map_cons] at hfe
      simp [convert_pymupdf_to_pdf_annot, typeGeo, ptsVal, PyVal.truthy,
        PyVal.seq, exceptBind_ok, Except.map, hfe]
  · intro hss
    rcases ss with _ | ⟨s1, ss⟩
    · exact absurd rfl hss
    · have hfi := flipInk_strokes h (s1 :: ss)
      simp only [List.map_cons] at hfi
      simp [convert_pymupdf_to_pdf_annot, typeGeo, strokesVal, PyVal.truthy,
        PyVal.seq, exceptBind_ok, Except.map, hfi]
  · simp [convert_pymupdf_to_pdf_annot, typeGeo, lineGeo, ptVal,
      PyVal.truthy, PyVal.seq, getFloatAt, PyVal.toFloat, exceptBind_ok,
      Except.map]

/-- Witness for C5 at concrete inputs: a square at rect `(1,2,3,4)` on a
letter-size page, one polygon point, one highlight point, one
single-point ink stroke, and a line from `(1,2)` to `(3,4)`. -/
theorem translator_flip_witness :
    (pageHeightOf { pageEx with mediaBox := some (0, 0, 612, 792) } =
      792 - 0) ∧
    (pageHeightOf { pageEx with mediaBox := none } = 792) ∧
    (dEx.rect =
      [pyEx.rect.1, 792 - pyEx.rect.2.2.2, pyEx.rect.2.2.1,
       792 - pyEx.rect.2.1]) ∧
    (∃ x0 y0 x1 y1, dEx.rect = [x0, y0, x1, y1] ∧ y0 ≤ y1) ∧
    ((convert_pymupdf_to_pdf_annot "D:1"
        { pyEx with type := "Polygon", vertices := some (ptsVal [(1, 2)]) }
        792).map PdfDict.vertices =
      .ok (some ([((1 : ℚ), (2 : ℚ))].flatMap fun p => [p.1, 792 - p.2]))) ∧
    ((convert_pymupdf_to_pdf_annot "D:1"
        { pyEx with type := "Highlight", vertices := some (ptsVal [(1, 2)]) }
        792).map PdfDict.quadPoints =
      .ok (some ([((1 : ℚ), (2 : ℚ))].flatMap fun p => [p.1, 792 - p.2]))) ∧
    ((convert_pymupdf_to_pdf_annot "D:1"
        { pyEx with type := "Ink", vertices := some (strokesVal [[(1, 2)]]) }
        792).map PdfDict.inkList =
      .ok (some ([[((1 : ℚ), (2 : ℚ))]].map fun s1 =>
        s1.flatMap fun p => [p.1, 792 - p.2]))) ∧
    ((convert_pymupdf_to_pdf_annot "D:1"
        { pyEx with type := "Line",
                    vertices := some (.arr (ptVal (1, 2) :: ptVal (3, 4) :: []))
        } 792).map PdfDict.l =
      .ok (some [(1 : ℚ), 792 - 2, 3, 792 - 4])) := by
  have T := translator_flip "D:1" pyEx (0, 0, 612, 792) pageEx 792 dEx
    [((1 : ℚ), (2 : ℚ))] [[((1 : ℚ), (2 : ℚ))]] (1, 2) (3, 4) []
  have hconv : convert_pymupdf_to_pdf_annot "D:1" pyEx 792 = .ok dEx := rfl
  exact ⟨T.1, T.2.1, T.2.2.1 hconv,
    T.2.2.2.1 hconv (by norm_num [pyEx]),
    T.2.2.2.2.1 (by simp), T.2.2.2.2.2.1 (by simp),
    T.2.2.2.2.2.2.1 (by simp), T.2.2.2.2.2.2.2⟩

/-- Witness for the amended C2 at the concrete empty-vertex records. -/
theorem empty_polygon_amended_witness :
    (create_annotation_dict "D:1" polyX).vertices = none ∧
    (convert_pymupdf_to_pdf_annot "D:1" polyP 792).map PdfDict.vertices =
      .ok none ∧
    (convert_pymupdf_to_pdf_annot "D:1" polyP 792).map PdfDict.subtype =
      .ok polyP.type :=
  empty_polygon_amended "D:1" polyX polyP 792 (Or.inl rfl) (Or.inr rfl)
    (Or.inl rfl) (Or.inr rfl)

/-- Helper: binding an error short-circuits. -/
theorem exceptBind_eq_ok {α β : Type} {o : Except Unit α}
    {f : α → Except Unit β} {b : β} (h : (o >>= f) = .ok b) :
    ∃ a, o = .ok a ∧ f a = .ok b := by
  cases o with
  | error e => exact Except.noConfusion h
  | ok a => exact ⟨a, rfl, h⟩

/-- Helper: inverting `Except.map` at a success. -/
theorem exceptMap_ok {α β : Type} {o : Except Unit α} {f : α → β} {b : β}
    (h : o.map f = .ok b) : ∃ a, o = .ok a ∧ b = f a := by
  cases o with
  | error e => exact Except.noConfusion h
  | ok a =>
    refine ⟨a, rfl, ?_⟩
    simpa [Except.map] using h.symm

/-- Helper: unfolding the group weight on a cons. -/
theorem groupWeight_cons {α : Type} (n : Nat) (g : Nat × List α)
    (gs : List (Nat × List α)) :
    groupWeight n (g :: gs) =
      (if g.1 < n then g.2.length else 0) + groupWeight n gs := by
  simp [groupWeight]

/-- Helper: inserting one annotation into the page groups adds one to
the weight exactly when its page is in range. -/
theorem groupWeight_insertGroup {α : Type} (n : Nat)
    (gs : List (Nat × List α)) (p : Nat) (a : α) :
    groupWeight n (insertGroup gs p a) =
      groupWeight n gs + (if p < n then 1 else 0) := by
  induction gs with
  | nil =>
    by_cases hn : p < n <;> simp [insertGroup, groupWeight, hn]
  | cons g gs ih =>
    rcases g with ⟨q, l⟩
    by_cases hq : q = p
    · subst hq
      by_cases hn : q < n <;>
        simp [insertGroup, groupWeight, hn, List.sum_cons] <;> omega
    · by_cases hn : q < n <;> by_cases hp : p < n <;>
        simp only [insertGroup, if_neg hq, groupWeight, List.map_cons,
          List.sum_cons, hn, hp, if_true, if_false] at ih ⊢ <;> omega

/-- Helper: the weight of the grouped annotations counts exactly the
in-range ones. -/
theorem groupWeight_foldl {α : Type} (pageOf : α → Nat) (n : Nat)
    (l : List α) :
    ∀ gs : List (Nat × List α),
      groupWeight n (l.foldl (fun gs a => insertGroup gs (pageOf a) a) gs) =
        groupWeight n gs +
          (l.filter fun a => decide (pageOf a < n)).length := by
  induction l with
  | nil => intro gs; simp
  | cons a l ih =>
    intro gs
    rw [List.foldl_cons, ih (insertGroup gs (pageOf a) a),
      groupWeight_insertGroup]
    by_cases hp : pageOf a < n <;> simp [List.filter_cons, hp] <;> omega

/-- Helper: grouping by page preserves the in-range count. -/
theorem groupWeight_groupByPage {α : Type} (pageOf : α → Nat) (n : Nat)
    (l : List α) :
    groupWeight n (groupByPage pageOf l) =
      (l.filter fun a => decide (pageOf a < n)).length := by
  have h := groupWeight_foldl pageOf n l []
  simpa [groupByPage, groupWeight] using h

/-- Helper: one XFDF group step does not change the page count. -/
theorem addXfdfGroup_fst_length (now : String) (st : List PdfPage × Nat)
    (g : Nat × List XfdfAnnot) :
    ((addXfdfGroup now st g).1).length = st.1.length := by
  unfold addXfdfGroup
  split <;> simp

/-- Helper: one XFDF group step adds the group size to the counter
exactly when the page is in range. -/
theorem addXfdfGroup_snd (now : String) (st : List PdfPage × Nat)
    (g : Nat × List XfdfAnnot) :
    (addXfdfGroup now st g).2 =
      st.2 + if g.1 < st.1.length then g.2.length else 0 := by
  unfold addXfdfGroup
  split <;> rename_i h <;> simp [h]

/-- Helper: the XFDF group fold preserves the page count and counts the
in-range group weights. -/
theorem xfdfFold_spec (now : String) (gs : List (Nat × List XfdfAnnot)) :
    ∀ (pages : List PdfPage) (c : Nat),
      (gs.foldl (addXfdfGroup now) (pages, c)).1.length = pages.length ∧
      (gs.foldl (addXfdfGroup now) (pages, c)).2 =
        c + groupWeight pages.length gs := by
  induction gs with
  | nil => intro pages c; simp [groupWeight]
  | cons g gs ih =>
    intro pages c
    rw [List.foldl_cons]
    have hlen1 : (addXfdfGroup now (pages, c) g).1.length = pages.length :=
      addXfdfGroup_fst_length now (pages, c) g
    have hsnd : (addXfdfGroup now (pages, c) g).2 =
        c + if g.1 < pages.length then g.2.length else 0 :=
      addXfdfGroup_snd now (pages, c) g
    have ih1 := ih (addXfdfGroup now (pages, c) g).1
      (addXfdfGroup now (pages, c) g).2
    rw [Prod.mk.eta] at ih1
    refine ⟨ih1.1.trans hlen1, ?_⟩
    rw [ih1.2, hlen1, hsnd, groupWeight_cons]
    omega

/-- Helper: one direct group step, at a success, preserves the page
count and adds the group size exactly when the page is in range. -/
theorem addDirectGroup_ok (now : String) (st : List PdfPage × Nat)
    (g : Nat × List PyAnnot) (st1 : List PdfPage × Nat)
    (h : addDirectGroup now st g = .ok st1) :
    st1.1.length = st.1.length ∧
    st1.2 = st.2 + if g.1 < st.1.length then g.2.length else 0 := by
  unfold addDirectGroup at h
  split at h
  · rename_i hg
    obtain ⟨news, hm, hb⟩ := exceptMap_ok h
    rw [hb]
    simp [hg]
  · rename_i hg
    have h2 : (st.1, st.2) = st1 := by
      simpa using h
    rw [← h2]
    simp [hg]

/-- Helper: the direct group fold, at a success, preserves the page
count and counts the in-range group weights. -/
theorem directFold_spec (now : String) (gs : List (Nat × List PyAnnot)) :
    ∀ (pages : List PdfPage) (c : Nat) (st : List PdfPage × Nat),
      gs.foldlM (addDirectGroup now) (pages, c) = .ok st →
      st.1.length = pages.length ∧
      st.2 = c + groupWeight pages.length gs := by
  induction gs with
  | nil =>
    intro pages c st h
    have h2 : (pages, c) = st := by
      simpa [List.foldlM, pure, Except.pure] using h
    rw [← h2]
    simp [groupWeight]
  | cons g gs ih =>
    intro pages c st h
    rw [List.foldlM_cons] at h
    obtain ⟨st1, h1, h2⟩ := exceptBind_eq_ok h
    have hst1 : st1.1.length = pages.length ∧
        st1.2 = c + if g.1 < pages.length then g.2.length else 0 :=
      addDirectGroup_ok now (pages, c) g st1 h1
    have ih1 := ih st1.1 st1.2 st (by rw [Prod.mk.eta]; exact h2)
    refine ⟨ih1.1.trans hst1.1, ?_⟩
    rw [ih1.2, hst1.1, hst1.2, groupWeight_cons]
    omega

/-- C10: annotations whose page index is out of range are skipped
without error, and the imported count equals the number of annotations
whose page index is within range — on the XFDF path unconditionally, on
the direct path at every successful run. -/
theorem import_count_in_range (now : String)
    (save : List PdfPage → List Nat) (pdf : PdfFile)
    (xs : List XfdfAnnot) (ys : List PyAnnot) (res : Nat × List Nat × Bool) :
    (import_xfdf_to_pdf now save pdf xs).1 =
      (xs.filter fun a => decide (a.page < pdf.pages.length)).length ∧
    (import_annotations_direct now save pdf ys = .ok res →
      res.1 =
        (ys.filter fun a => decide (a.page < pdf.pages.length)).length) := by
  constructor
  · by_cases hxs : xs = []
    · subst hxs
      simp [import_xfdf_to_pdf]
    · rw [import_xfdf_to_pdf, if_neg hxs]
      have h := (xfdfFold_spec now (groupByPage XfdfAnnot.page xs)
        pdf.pages 0).2
      simpa [xfdfCore, groupWeight_groupByPage] using h
  · intro hok
    cases ys with
    | nil =>
      have h2 : (0, pdf.bytes, false) = res := by
        simpa [import_annotations_direct] using hok
      rw [← h2]
      simp
    | cons y ys =>
      unfold import_annotations_direct at hok
      obtain ⟨st, h1, h2⟩ := exceptBind_eq_ok hok
      have hspec := directFold_spec now (groupByPage PyAnnot.page (y :: ys))
        pdf.pages 0 st h1
      have h3 : (st.2, save st.1, true) = res := by simpa using h2
      rw [← h3]
      have := hspec.2
      simpa [groupWeight_groupByPage] using this

/-- Helper: looking a page up after inserting one annotation. -/
theorem findGroup_insertGroup {α : Type} (gs : List (Nat × List α))
    (q p : Nat) (a : α) :
    findGroup (insertGroup gs q a) p =
      if q = p then some (((findGroup gs p).getD []) ++ [a])
      else findGroup gs p := by
  induction gs with
  | nil =>
    by_cases hq : q = p <;> simp [insertGroup, findGroup, hq]
  | cons g gs ih =>
    rcases g with ⟨k, l⟩
    by_cases hk : k = q
    · subst hk
      by_cases hp : k = p
      · subst hp
        simp [insertGroup, findGroup]
      · simp [insertGroup, findGroup, hp]
    · by_cases hp : k = p
      · subst hp
        have hqk : ¬ q = k := fun h => hk h.symm
        simp [insertGroup, hk, findGroup, hqk]
      · simp [insertGroup, hk, findGroup, hp, ih]

/-- Helper: looking a page up in the groups built from a list finds the
page's annotations in input order. -/
theorem findGroup_foldl {α : Type} (pageOf : α → Nat) (p : Nat)
    (l : List α) :
    ∀ gs : List (Nat × List α),
      ((l.filter fun a => decide (pageOf a = p)) = [] →
        findGroup (l.foldl (fun gs a => insertGroup gs (pageOf a) a) gs) p =
          findGroup gs p) ∧
      ((l.filter fun a => decide (pageOf a = p)) ≠ [] →
        findGroup (l.foldl (fun gs a => insertGroup gs (pageOf a) a) gs) p =
          some (((findGroup gs p).getD []) ++
            l.filter fun a => decide (pageOf a = p))) := by
  induction l with
  | nil => intro gs; exact ⟨fun _ => rfl, fun h => absurd rfl h⟩
  | cons a l ih =>
    intro gs
    by_cases hp : pageOf a = p
    · constructor
      · intro hf
        rw [List.filter_cons] at hf
        simp [hp] at hf
      · intro _
        rw [List.foldl_cons]
        by_cases hl : (l.filter fun a => decide (pageOf a = p)) = []
        · rw [(ih (insertGroup gs (pageOf a) a)).1 hl,
            findGroup_insertGroup, if_pos hp, List.filter_cons]
          simp [hp, hl]
        · rw [(ih (insertGroup gs (pageOf a) a)).2 hl,
            findGroup_insertGroup, if_pos hp, List.filter_cons]
          simp [hp]
    · constructor
      · intro hf
        rw [List.filter_cons] at hf
        simp only [hp, decide_eq_true_eq, if_false] at hf
        rw [List.foldl_cons,
          (ih (insertGroup gs (pageOf a) a)).1 hf,
          findGroup_insertGroup, if_neg hp]
      · intro hf
        rw [List.filter_cons] at hf
        simp only [hp, decide_eq_true_eq, if_false] at hf
        rw [List.foldl_cons,
          (ih (insertGroup gs (pageOf a) a)).2 hf,
          findGroup_insertGroup, if_neg hp, List.filter_cons]
        simp [hp]

/-- Helper: a page targeted by no record has no group. -/
theorem findGroup_groupByPage_none {α : Type} (pageOf : α → Nat) (p : Nat)
    (l : List α) (hf : (l.filter fun a => decide (pageOf a = p)) = []) :
    findGroup (groupByPage pageOf l) p = none := by
  have h := (findGroup_foldl pageOf p l []).1 hf
  simpa [groupByPage, findGroup] using h

/-- Helper: a page targeted by some record groups exactly its filtered
records, in input order. -/
theorem findGroup_groupByPage_some {α : Type} (pageOf : α → Nat) (p : Nat)
    (l : List α) (hf : (l.filter fun a => decide (pageOf a = p)) ≠ []) :
    findGroup (groupByPage pageOf l) p =
      some (l.filter fun a => decide (pageOf a = p)) := by
  have h := (findGroup_foldl pageOf p l []).2 hf
  simpa [groupByPage, findGroup] using h

/-- Helper: the keys after an insertion. -/
theorem keys_insertGroup {α : Type} (gs : List (Nat × List α)) (p : Nat)
    (a : α) :
    (insertGroup gs p a).map Prod.fst =
      if p ∈ gs.map Prod.fst then gs.map Prod.fst
      else gs.map Prod.fst ++ [p] := by
  induction gs with
  | nil => simp [insertGroup]
  | cons g gs ih =>
    by_cases hg : g.1 = p
    · simp [insertGroup, hg]
    · have hpg : ¬ p = g.1 := fun h => hg h.symm
      by_cases hm : p ∈ gs.map Prod.fst <;>
        simp [insertGroup, hg, ih, hm, hpg]

/-- Helper: grouping never duplicates a page key. -/
theorem keys_nodup_groupByPage {α : Type} (pageOf : α → Nat) (l : List α) :
    ((groupByPage pageOf l).map Prod.fst).Nodup := by
  suffices h : ∀ gs : List (Nat × List α), (gs.map Prod.fst).Nodup →
      ((l.foldl (fun gs a => insertGroup gs (pageOf a) a) gs).map
        Prod.fst).Nodup by
    exact h [] (by simp)
  induction l with
  | nil => intro gs h; simpa using h
  | cons a l ih =>
    intro gs h
    rw [List.foldl_cons]
    apply ih
    rw [keys_insertGroup]
    by_cases hm : pageOf a ∈ gs.map Prod.fst
    · simpa [hm] using h
    · simp only [hm, if_false]
      rw [List.nodup_append]
      refine ⟨h, List.nodup_singleton _, ?_⟩
      intro x hx hx1
      simp only [List.mem_singleton] at hx1
      exact hm (hx1 ▸ hx)

/-- Helper: a page key absent from the groups finds nothing. -/
theorem findGroup_eq_none {α : Type} (gs : List (Nat × List α)) (p : Nat)
    (h : p ∉ gs.map Prod.fst) : findGroup gs p = none := by
  induction gs with
  | nil => rfl
  | cons g gs ih =>
    simp only [List.map_cons, List.mem_cons, not_or] at h
    have h1 : ¬ g.1 = p := fun hh => h.1 hh.symm
    simp [findGroup, h1, ih h.2]

/-- Helper: the XFDF group fold writes each page once: the final page at
index `p` holds exactly its original entries followed by the imported
objects of its group. -/
theorem xfdfFold_getElem (now : String) (gs : List (Nat × List XfdfAnnot)) :
    ∀ (pages : List PdfPage) (c : Nat) (p : Nat),
      (gs.map Prod.fst).Nodup →
      ((gs.foldl (addXfdfGroup now) (pages, c)).1[p]?).map existingEntries =
        (match findGroup gs p with
        | some as => (pages[p]?).map fun pg =>
            existingEntries pg ++ as.map fun a =>
              AnnotEntry.imported (create_annotation_dict now a)
        | none => (pages[p]?).map existingEntries) := by
  induction gs with
  | nil => intro pages c p _; simp [findGroup]
  | cons g gs ih =>
    intro pages c p hnd
    rw [List.foldl_cons]
    rw [List.map_cons, List.nodup_cons] at hnd
    have ih1 := ih (addXfdfGroup now (pages, c) g).1
      (addXfdfGroup now (pages, c) g).2 p hnd.2
    rw [Prod.mk.eta] at ih1
    rw [ih1]
    by_cases hp : g.1 = p
    · subst hp
      rw [findGroup_eq_none gs g.1 hnd.1]
      simp only [findGroup, if_pos rfl]
      by_cases hlt : g.1 < pages.length
      · simp [addXfdfGroup, hlt, List.getElem?_set_eq_of_lt,
          List.getElem?_eq_getElem hlt, existingEntries]
      · have hnone : pages[g.1]? = none :=
          List.getElem?_eq_none (Nat.le_of_not_lt hlt)
        simp [addXfdfGroup, hlt, hnone]
    · have hst : (addXfdfGroup now (pages, c) g).1[p]? = pages[p]? := by
        unfold addXfdfGroup
        split
        · simp [List.getElem?_set_ne hp]
        · rfl
      rw [hst]
      simp only [findGroup, if_neg hp]

/-- Helper: the direct group fold, at a success, also only appends to
each page's entry list. -/
theorem directFold_getElem (now : String) (gs : List (Nat × List PyAnnot)) :
    ∀ (pages : List PdfPage) (c : Nat) (p : Nat) (st : List PdfPage × Nat),
      (gs.map Prod.fst).Nodup →
      gs.foldlM (addDirectGroup now) (pages, c) = .ok st →
      ∃ news : List AnnotEntry,
        (st.1[p]?).map existingEntries =
          (pages[p]?).map (fun pg => existingEntries pg ++ news) ∧
        (findGroup gs p = none → news = []) := by
  induction gs with
  | nil =>
    intro pages c p st _ h
    have h2 : (pages, c) = st := by
      simpa [List.foldlM, pure, Except.pure] using h
    rw [← h2]
    exact ⟨[], by simp, fun _ => rfl⟩
  | cons g gs ih =>
    intro pages c p st hnd h
    rw [List.foldlM_cons] at h
    obtain ⟨st1, h1, h2⟩ := exceptBind_eq_ok h
    rw [List.map_cons, List.nodup_cons] at hnd
    have ih1 := ih st1.1 st1.2 p st hnd.2 (by rw [Prod.mk.eta]; exact h2)
    obtain ⟨news1, e1, e2⟩ := ih1
    by_cases hp : g.1 = p
    · subst hp
      have hn1 : news1 = [] := e2 (findGroup_eq_none gs g.1 hnd.1)
      subst hn1
      unfold addDirectGroup at h1
      split at h1
      · rename_i hlt
        obtain ⟨news0, hm, hb⟩ := exceptMap_ok h1
        rw [hb] at e1
        refine ⟨news0, ?_, ?_⟩
        · rw [e1]
          simp [List.getElem?_set_eq_of_lt, hlt,
            List.getElem?_eq_getElem hlt, existingEntries]
        · intro hfg
          simp [findGroup] at hfg
      · rename_i hlt
        have hb : (pages, c) = st1 := by simpa using h1
        rw [← hb] at e1
        refine ⟨[], ?_, fun _ => rfl⟩
        exact e1
    · have hst : st1.1[p]? = pages[p]? := by
        unfold addDirectGroup at h1
        split at h1
        · obtain ⟨news0, hm, hb⟩ := exceptMap_ok h1
          rw [hb]
          simp [List.getElem?_set_ne hp]
        · have hb : (pages, c) = st1 := by simpa using h1
          rw [← hb]
      rw [hst] at e1
      refine ⟨news1, e1, ?_⟩
      intro hfg
      apply e2
      simpa [findGroup, hp] using hfg

/-- C8: importing never disturbs the entries already in a page's
annotation array — the output array is the existing entries, in their
original order, followed by the newly created annotation objects in
input order; the XFDF path appends exactly the page's filtered records,
and the direct path appends some (possibly empty) batch of new objects,
empty when no record targets the page. -/
theorem import_preserves_order (now : String)
    (save : List PdfPage → List Nat) (pdf : PdfFile)
    (xs : List XfdfAnnot) (ys : List PyAnnot) (p : Nat)
    (st : List PdfPage × Nat) :
    (((xfdfCore now pdf xs).1[p]?).map existingEntries =
      (pdf.pages[p]?).map fun pg =>
        existingEntries pg ++
          ((xs.filter fun a => decide (a.page = p)).map fun a =>
            AnnotEntry.imported (create_annotation_dict now a))) ∧
    (xs ≠ [] → import_xfdf_to_pdf now save pdf xs =
      ((xfdfCore now pdf xs).2, save (xfdfCore now pdf xs).1, true)) ∧
    (directCore now pdf ys = .ok st →
      ∃ news : List AnnotEntry,
        ((st.1[p]?).map existingEntries =
          (pdf.pages[p]?).map fun pg => existingEntries pg ++ news) ∧
        ((ys.filter fun a => decide (a.page = p)) = [] → news = [])) := by
  refine ⟨?_, ?_, ?_⟩
  · have h := xfdfFold_getElem now (groupByPage XfdfAnnot.page xs)
      pdf.pages 0 p (keys_nodup_groupByPage XfdfAnnot.page xs)
    by_cases hf : (xs.filter fun a => decide (a.page = p)) = []
    · rw [findGroup_groupByPage_none XfdfAnnot.page p xs hf] at h
      rw [xfdfCore, hf]
      simpa using h
    · rw [findGroup_groupByPage_some XfdfAnnot.page p xs hf] at h
      rw [xfdfCore]
      simpa using h
  · intro hxs
    rw [import_xfdf_to_pdf, if_neg hxs]
  · intro hok
    obtain ⟨news, e1, e2⟩ := directFold_getElem now
      (groupByPage PyAnnot.page ys) pdf.pages 0 p st
      (keys_nodup_groupByPage PyAnnot.page ys) hok
    refine ⟨news, e1, fun hf => e2 ?_⟩
    exact findGroup_groupByPage_none PyAnnot.page p ys hf

/-- Witness for C8: one highlight on the one-page file; the empty direct
run leaves the pages untouched. -/
theorem import_preserves_order_witness :
    (((xfdfCore "D:1" pdfEx [xfdfEx]).1[0]?).map existingEntries =
      (pdfEx.pages[0]?).map fun pg =>
        existingEntries pg ++
          (([xfdfEx].filter fun a => decide (a.page = 0)).map fun a =>
            AnnotEntry.imported (create_annotation_dict "D:1" a))) ∧
    (import_xfdf_to_pdf "D:1" (fun _ => []) pdfEx [xfdfEx] =
      ((xfdfCore "D:1" pdfEx [xfdfEx]).2, [], true)) ∧
    (∃ news : List AnnotEntry,
      (((pdfEx.pages, 0).1[0]?).map existingEntries =
        (pdfEx.pages[0]?).map fun pg => existingEntries pg ++ news) ∧
      (([] : List PyAnnot).filter (fun a => decide (a.page = 0)) = [] →
        news = [])) :=
  have T := import_preserves_order "D:1" (fun _ => []) pdfEx [xfdfEx] [] 0
    (pdfEx.pages, 0)
  ⟨T.1, T.2.1 (by simp), T.2.2 rfl⟩

/-- Witness for C10: one in-range and one out-of-range XFDF annotation
against the one-page file give count 1; the empty direct run gives
count 0. -/
theorem import_count_in_range_witness :
    (import_xfdf_to_pdf "D:1" (fun _ => []) pdfEx
        [xfdfEx, { xfdfEx with page := 9 }]).1 =
      (([xfdfEx, { xfdfEx with page := 9 }].filter
        fun a => decide (a.page < pdfEx.pages.length)).length) ∧
    ((0, pdfEx.bytes, false) : Nat × List Nat × Bool).1 =
      (([] : List PyAnnot).filter
        fun a => decide (a.page < pdfEx.pages.length)).length :=
  ⟨(import_count_in_range "D:1" (fun _ => []) pdfEx
      [xfdfEx, { xfdfEx with page := 9 }] [] (0, pdfEx.bytes, false)).1,
   (import_count_in_range "D:1" (fun _ => []) pdfEx
      [xfdfEx, { xfdfEx with page := 9 }] [] (0, pdfEx.bytes, false)).2 rfl⟩

end XfdfImport
